import Mathlib

/-!
Verification development for the cat-admin category-membership and
audit-aggregation core.

The TypeScript sources are shallowly embedded as pure Lean functions:

* `normalizeEnsName` — `src/unnamed/part_000` (`normalizeEnsName`), with the
  external ENSIP-15 library `ens_normalize` abstracted as a parameter
  `ensNormalize : String → Option String` (`none` models a thrown error).
* `classifyLine` — the per-line classification inside `parsedNames` of
  `src/unnamed/part_013` (new-category form): TLD policy, `.eth` appending,
  strict already-normalized check.
* `addMembersPOST` / `removeMembersDELETE` — the audited bulk member routes
  (the POST/DELETE handlers stored in
  `src/src/app/api/cats/[name]/invalid-names/route.ts`).
* `addMembersLegacyPOST` — the older bulk add in
  `src/src/app/api/cats/[name]/members/route.ts`.
* `scanInvalidNamesGET` — the invalid-name scanner (GET of the same route
  file).
* `groupEntries`, `getChangedFields` — the activity aggregator of
  `src/src/app/activity/page.tsx`.
* `activityGET` — the audit-log read route `src/unnamed/part_019`.

JS strings are modelled as Lean `String`; `toLowerCase`/`trim`/`endsWith`
are modelled on the character data (`Char.toLower`, whitespace stripping,
`List.isSuffixOf`), which agrees with JS on the ASCII fragment exercised
here and evaluates by kernel reduction.
The handlers are embedded after their authentication/authorization
short-circuits (the claims all speak of authenticated admin requests), and
database tables are lists of rows.
-/

set_option autoImplicit false

namespace CatAdmin

/-- Models JS `toLowerCase` (agrees on ASCII, which is all the code relies
on), applied to the character data so that it evaluates by kernel
reduction. -/
def jsToLower (s : String) : String := ⟨s.data.map Char.toLower⟩

/-- Models JS `trim`: strip leading and trailing whitespace (on character
data, so that it evaluates by kernel reduction). -/
def jsTrim (s : String) : String :=
  ⟨((s.data.dropWhile Char.isWhitespace).reverse.dropWhile
      Char.isWhitespace).reverse⟩

/-- Models JS `endsWith('.eth')` via suffix testing on the character data. -/
def endsWithEth (s : String) : Bool := ".eth".data.isSuffixOf s.data

/-- `name.slice(0, -4)` for the `.eth`-label check of the scanner:
everything before the final four characters. -/
def ethLabel (s : String) : String := ⟨s.data.take (s.data.length - 4)⟩

/-- Models JS `name.contains('.')` / `lastIndexOf('.') !== -1`. -/
def containsDot (s : String) : Bool := s.data.contains '.'

/-- Models `name.slice(name.lastIndexOf('.'))`: the final dot together with
everything after it (meaningful only when `containsDot`). -/
def lastTld (s : String) : String :=
  ⟨'.' :: (s.data.reverse.takeWhile (fun c => !(c == '.'))).reverse⟩

/--
Embedding of `normalizeEnsName` (src/unnamed/part_000 lines 8–22):
reject empty input, trim, reject whitespace-only input, then delegate to the
external ENSIP-15 `ens_normalize`, whose thrown error is modelled as `none`.
-/
def normalizeEnsName (ensNormalize : String → Option String) (name : String) :
    Option String :=
  if name = "" then none
  else
    let trimmed := jsTrim name
    if trimmed.length = 0 then none
    else ensNormalize trimmed

/-- Result of classifying one line of the new-category form
(`parsedNames`, src/unnamed/part_013 lines 169–202).  The display-only
`reason` strings of the source are omitted. -/
structure ParsedName where
  original : String
  normalized : Option String
  isValid : Bool
  deriving DecidableEq, Repr

/--
Embedding of the per-line body of `parsedNames`
(src/unnamed/part_013 lines 171–200): a non-`.eth` TLD is rejected outright;
a missing `.eth` suffix is appended before normalization; a valid line must
already equal its normalized form.
-/
def classifyLine (ensNormalize : String → Option String) (name : String) :
    ParsedName :=
  if containsDot name && !(lastTld name == ".eth") then
    { original := name, normalized := none, isValid := false }
  else
    let fullName := if endsWithEth name then name else name ++ ".eth"
    let normalized := normalizeEnsName ensNormalize fullName
    { original := name, normalized := normalized,
      isValid := !(normalized == none) && normalized == some fullName }

/-- A dotless string does not end with `".eth"`. -/
theorem endsWithEth_eq_false_of_not_containsDot (s : String)
    (h : containsDot s = false) : endsWithEth s = false := by
  by_contra hne
  have hsuff : ".eth".data.isSuffixOf s.data = true := by
    cases he : endsWithEth s with
    | false => exact absurd he hne
    | true => exact he
  rw [List.isSuffixOf_iff_suffix] at hsuff
  obtain ⟨t, ht⟩ := hsuff
  have hdot : '.' ∈ s.data := by
    rw [← ht]
    exact List.mem_append_of_mem_right t (by simp [String.data])
  simp [containsDot, List.contains, List.elem_eq_mem, hdot] at h

/--
C7: the name-normalizer edge policy.  For every input: (1) a present TLD
other than `.eth` yields Invalid; (2) a dotless bare label has `.eth`
appended before normalization; (3) empty or whitespace-only input is
Invalid.
-/
theorem edge_policy_of_normalizer (ensNormalize : String → Option String)
    (name : String) :
    (containsDot name = true → lastTld name ≠ ".eth" →
      (classifyLine ensNormalize name).isValid = false ∧
      (classifyLine ensNormalize name).normalized = none) ∧
    (containsDot name = false →
      (classifyLine ensNormalize name).normalized =
        normalizeEnsName ensNormalize (name ++ ".eth")) ∧
    (jsTrim name = "" → normalizeEnsName ensNormalize name = none) := by
  refine ⟨?_, ?_, ?_⟩
  · intro hdot htld
    have hcond : (containsDot name && !(lastTld name == ".eth")) = true := by
      simp [hdot, htld]
    simp [classifyLine, hcond]
  · intro hdot
    have hsuffix := endsWithEth_eq_false_of_not_containsDot name hdot
    have hcond : (containsDot name && !(lastTld name == ".eth")) = false := by
      simp [hdot]
    simp [classifyLine, hcond, hsuffix]
  · intro htrim
    by_cases hname : name = ""
    · simp [normalizeEnsName, hname]
    · simp [normalizeEnsName, hname, htrim]

/-- Witness for C7 at concrete inputs: `"foo.xyz"` (bad TLD), `"abc"`
(bare label), `" "` (whitespace-only). -/
theorem edge_policy_of_normalizer_witness :
    ((classifyLine (fun s => some s) "foo.xyz").isValid = false ∧
      (classifyLine (fun s => some s) "foo.xyz").normalized = none) ∧
    ((classifyLine (fun s => some s) "abc").normalized =
      normalizeEnsName (fun s => some s) ("abc" ++ ".eth")) ∧
    normalizeEnsName (fun s => some s) " " = none := by
  refine ⟨?_, ?_, ?_⟩
  · exact (edge_policy_of_normalizer (fun s => some s) "foo.xyz").1
      (by decide) (by decide)
  · exact (edge_policy_of_normalizer (fun s => some s) "abc").2.1 (by decide)
  · exact (edge_policy_of_normalizer (fun s => some s) " ").2.2 (by decide)

/-! ## Data model: clubs, known names, memberships -/

/-- A row of `club_memberships` (composite key `(club_name, ens_name)`;
`added_at` models the timestamp column, also standing in for the legacy
route's `created_at`). -/
structure MembershipRow where
  club_name : String
  ens_name : String
  added_at : Nat
  deriving DecidableEq, Repr

/-- A row of `clubs` restricted to the fields these routes read or write. -/
structure ClubRow where
  name : String
  member_count : Nat
  updated_at : Nat
  deriving DecidableEq, Repr

/-- The database state visible to the membership routes: the `clubs` table,
the known-names table `ens_names` (each row its name string), and the
`club_memberships` table. -/
structure DB where
  clubs : List ClubRow
  ens_names : List String
  memberships : List MembershipRow
  deriving DecidableEq, Repr

/-- `SELECT name FROM clubs WHERE name = $1` produced a row. -/
def clubExists (db : DB) (cat : String) : Bool :=
  db.clubs.any (fun c => c.name == cat)

/-! ## Membership reconciler: audited bulk add
(POST handler stored in `invalid-names/route.ts`, lines 102–235) -/

/-- Response of the audited bulk-add handler, with the JSON fields the
claims observe.  `details` is the optional
`{invalidFormat, notInDatabase}` object. -/
structure AddResponse where
  status : Nat
  added : Nat := 0
  skipped : Nat := 0
  invalidNames : List String := []
  details : Option (List String × List String) := none
  deriving DecidableEq, Repr

/-- `invalidEnsNames`: originals whose normalization failed
(route lines 139–141). -/
def invalidFormatOf (ensNormalize : String → Option String)
    (names : List String) : List String :=
  names.filter (fun n => (normalizeEnsName ensNormalize n).isNone)

/-- `normalizedNames`: the successful normalizations, in order
(route lines 143–145). -/
def normalizedOf (ensNormalize : String → Option String)
    (names : List String) : List String :=
  names.filterMap (normalizeEnsName ensNormalize)

/-- `validNames`: rows of `ens_names` whose lowercase form is among the
lowercased normalized requests
(`SELECT name FROM ens_names WHERE LOWER(name) IN (...)`,
route lines 164–167). -/
def validNamesOf (ensNormalize : String → Option String)
    (ensTable : List String) (names : List String) : List String :=
  ensTable.filter (fun dbn =>
    ((normalizedOf ensNormalize names).map jsToLower).contains (jsToLower dbn))

/-- `notFoundNames`: normalized requests missing from `validNames`'s
lowercase set (route lines 169–170). -/
def notFoundOf (ensNormalize : String → Option String)
    (ensTable : List String) (names : List String) : List String :=
  (normalizedOf ensNormalize names).filter (fun n =>
    !((validNamesOf ensNormalize ensTable names).map jsToLower).contains
      (jsToLower n))

/-- The insert loop (route lines 195–209):
`INSERT ... ON CONFLICT (club_name, ens_name) DO NOTHING RETURNING`,
counting actually-inserted rows as added and conflicts as skipped. -/
def insertLoop (cat : String) (now : Nat) :
    List String → List MembershipRow → Nat × Nat × List MembershipRow
  | [], rows => (0, 0, rows)
  | n :: rest, rows =>
    if rows.any (fun m => m.club_name == cat && m.ens_name == n) then
      let (a, s, rows') := insertLoop cat now rest rows
      (a, s + 1, rows')
    else
      let (a, s, rows') :=
        insertLoop cat now rest (rows ++ [⟨cat, n, now⟩])
      (a + 1, s, rows')

/--
Embedding of the audited bulk-add POST handler
(`invalid-names/route.ts` second document, lines 117–223), after the
auth short-circuits: body validation, the 1000-name cap, ENSIP-15
normalization, category existence, case-insensitive known-name lookup, the
all-or-nothing validity gate, then the idempotent insert loop inside the
actor-stamped transaction.  Returns the JSON response and the new database
state.
-/
def addMembersPOST (ensNormalize : String → Option String) (db : DB)
    (cat : String) (names : List String) (now : Nat) : AddResponse × DB :=
  if names.isEmpty then ({ status := 400 }, db)
  else if names.length > 1000 then ({ status := 400 }, db)
  else
    let invalidEnsNames := invalidFormatOf ensNormalize names
    let normalizedNames := normalizedOf ensNormalize names
    if normalizedNames.isEmpty then
      ({ status := 400, invalidNames := invalidEnsNames }, db)
    else if !clubExists db cat then ({ status := 404 }, db)
    else
      let validNames := validNamesOf ensNormalize db.ens_names names
      let notFoundNames := notFoundOf ensNormalize db.ens_names names
      let allInvalidNames := invalidEnsNames ++ notFoundNames
      if !allInvalidNames.isEmpty then
        ({ status := 400, invalidNames := allInvalidNames,
           details := some (invalidEnsNames, notFoundNames) }, db)
      else
        let dbNames := validNames
        let (added, skipped, rows) := insertLoop cat now dbNames db.memberships
        ({ status := 200, added := added, skipped := skipped },
         { db with memberships := rows })

/-! ## Membership reconciler: audited bulk remove
(DELETE handler stored in `invalid-names/route.ts`, lines 238–327) -/

/-- Response of the audited bulk-remove handler. -/
structure RemoveResponse where
  status : Nat
  removed : Nat := 0
  deriving DecidableEq, Repr

/-- One case-insensitive `DELETE` for the given requested name
(`WHERE club_name = $1 AND LOWER(ens_name) = LOWER($2)`). -/
def matchesRemoval (cat n : String) (m : MembershipRow) : Bool :=
  m.club_name == cat && jsToLower m.ens_name == jsToLower n

/-- The delete loop (route lines 291–302): per requested name, delete the
case-insensitive matches and bump `removed` when the delete touched at
least one row. -/
def deleteLoop (cat : String) :
    List String → List MembershipRow → Nat × List MembershipRow
  | [], rows => (0, rows)
  | n :: rest, rows =>
    let deleted := rows.filter (matchesRemoval cat n)
    let remaining := rows.filter (fun m => !matchesRemoval cat n m)
    let r := deleteLoop cat rest remaining
    (if deleted.length > 0 then r.1 + 1 else r.1, r.2)

/--
Embedding of the audited bulk-remove DELETE handler
(`invalid-names/route.ts` second document, lines 253–315), after the auth
short-circuits: body validation, the cap, normalization (silently dropping
unnormalizable requests), category existence, then the case-insensitive
delete loop inside the actor-stamped transaction.
-/
def removeMembersDELETE (ensNormalize : String → Option String) (db : DB)
    (cat : String) (names : List String) : RemoveResponse × DB :=
  if names.isEmpty then ({ status := 400 }, db)
  else if names.length > 1000 then ({ status := 400 }, db)
  else
    let normalizedNames := normalizedOf ensNormalize names
    if normalizedNames.isEmpty then ({ status := 400 }, db)
    else if !clubExists db cat then ({ status := 404 }, db)
    else
      let (removed, rows) := deleteLoop cat normalizedNames db.memberships
      ({ status := 200, removed := removed }, { db with memberships := rows })

/-! ## Legacy bulk add (`members/route.ts` POST, lines 11–126) -/

/--
Embedding of the legacy bulk-add POST handler
(`src/src/app/api/cats/[name]/members/route.ts` lines 26–114), after the
auth short-circuits: trim+lowercase normalization, exact-case known-name
lookup, pre-computed existing-membership set, plain inserts, and — unlike
the audited route — a direct
`UPDATE clubs SET member_count = (SELECT COUNT(*) ...), updated_at = NOW()`.
-/
def addMembersLegacyPOST (db : DB) (cat : String) (names : List String)
    (now : Nat) : AddResponse × DB :=
  if names.isEmpty then ({ status := 400 }, db)
  else
    let normalizedNames :=
      (names.map (fun n => jsToLower (jsTrim n))).filter (fun n => n.length > 0)
    if normalizedNames.isEmpty then ({ status := 400 }, db)
    else if !clubExists db cat then ({ status := 404 }, db)
    else
      let validNames := db.ens_names.filter
        (fun dbn => normalizedNames.contains dbn)
      let invalidNames := normalizedNames.filter
        (fun n => !validNames.contains n)
      if !invalidNames.isEmpty then
        ({ status := 400, invalidNames := invalidNames }, db)
      else
        let existingSet :=
          ((db.memberships.filter (fun m =>
              m.club_name == cat && normalizedNames.contains m.ens_name)).map
            (fun m => m.ens_name)).eraseDups
        let newNames := normalizedNames.filter
          (fun n => !existingSet.contains n)
        if newNames.isEmpty then
          ({ status := 200, added := 0, skipped := normalizedNames.length }, db)
        else
          let rows := db.memberships ++ newNames.map (fun n => ⟨cat, n, now⟩)
          let newCount :=
            (rows.filter (fun m => m.club_name == cat)).length
          let clubs := db.clubs.map (fun c =>
            if c.name == cat then
              { c with member_count := newCount, updated_at := now }
            else c)
          ({ status := 200, added := newNames.length,
             skipped := existingSet.length },
           { db with memberships := rows, clubs := clubs })

/-! ## Invalid-name scanner (`invalid-names/route.ts` GET, lines 12–89) -/

/-- One finding of the scanner. -/
structure InvalidNameEntry where
  name : String
  reason : String
  added_at : Nat
  deriving DecidableEq, Repr

/-- Scanner response. -/
structure ScanResponse where
  status : Nat
  totalScanned : Nat := 0
  invalidCount : Nat := 0
  invalidNames : List InvalidNameEntry := []
  deriving DecidableEq, Repr

/-- The length-policy reason string of the scanner (route line 68). -/
def tooShortReason (labelLen : Nat) : String :=
  s!"Too short ({labelLen} chars, minimum is 3)"

/-- Lexicographic comparison of character data (kernel-reducible model of
the database's text ordering for `ORDER BY`). -/
def charListLe : List Char → List Char → Bool
  | [], _ => true
  | _ :: _, [] => false
  | a :: as, b :: bs =>
    if a == b then charListLe as bs else decide (a.toNat < b.toNat)

/-- String comparison used to model `ORDER BY ens_name`. -/
def strLe (a b : String) : Bool := charListLe a.data b.data

/-- The memberships the scanner walks:
`SELECT ens_name, added_at FROM club_memberships WHERE club_name = $1
ORDER BY ens_name` (route lines 37–42). -/
def scannedMemberships (db : DB) (cat : String) : List MembershipRow :=
  (db.memberships.filter (fun m => m.club_name == cat)).insertionSort
    (fun a b => strLe a.ens_name b.ens_name = true)

/-- The scan loop (route lines 47–74): a name failing normalization is
flagged with the normalization reason; a normalizable `.eth` name whose
label (`slice(0, -4)`) is shorter than 3 characters is flagged with the
length reason. -/
def scanLoop (ensNormalize : String → Option String) :
    List MembershipRow → List InvalidNameEntry
  | [] => []
  | m :: rest =>
    match normalizeEnsName ensNormalize m.ens_name with
    | none =>
      ⟨m.ens_name, "Failed ENS normalization", m.added_at⟩ ::
        scanLoop ensNormalize rest
    | some _ =>
      if endsWithEth m.ens_name &&
          decide ((ethLabel m.ens_name).length < 3) then
        ⟨m.ens_name, tooShortReason (ethLabel m.ens_name).length,
          m.added_at⟩ :: scanLoop ensNormalize rest
      else scanLoop ensNormalize rest

/--
Embedding of the invalid-name scanner GET handler
(`invalid-names/route.ts` lines 27–84), after the auth short-circuits:
pure read over the category's memberships.
-/
def scanInvalidNamesGET (ensNormalize : String → Option String) (db : DB)
    (cat : String) : ScanResponse :=
  if !clubExists db cat then { status := 404 }
  else
    let memberships := scannedMemberships db cat
    let invalid := scanLoop ensNormalize memberships
    { status := 200, totalScanned := memberships.length,
      invalidCount := invalid.length, invalidNames := invalid }

/-! ## Concrete instantiations used by witnesses and counterexamples -/

/-- Concrete stand-in for the external `ens_normalize` library, used only
to instantiate theorems at concrete inputs: lowercase the input and accept
it when it is non-empty and consists of lowercase letters, digits, dots and
hyphens.  This agrees with the real ENSIP-15 library on every concrete name
appearing in the witnesses and counterexamples below (plain lowercase
`.eth` names are normalized to themselves; strings containing spaces or
`!` are rejected). -/
def ensNormTest (s : String) : Option String :=
  let t := jsToLower s
  if t.data.all (fun c => c.isLower || c.isDigit || c == '.' || c == '-') &&
      !t.data.isEmpty then
    some t
  else none

/-- A small concrete database: one category `club_a` with members
`ab.eth` and `vitalik.eth`, and a known-names table. -/
def db0 : DB :=
  { clubs := [⟨"club_a", 2, 0⟩],
    ens_names := ["vitalik.eth", "ab.eth"],
    memberships := [⟨"club_a", "ab.eth", 3⟩, ⟨"club_a", "vitalik.eth", 4⟩] }

/-! ## C6: invalid-name scanner classification -/

theorem scanLoop_mem_of_norm_fail (ensNormalize : String → Option String)
    (rows : List MembershipRow) (m : MembershipRow) (hm : m ∈ rows)
    (hn : normalizeEnsName ensNormalize m.ens_name = none) :
    (⟨m.ens_name, "Failed ENS normalization", m.added_at⟩ : InvalidNameEntry) ∈
      scanLoop ensNormalize rows := by
  induction rows with
  | nil => cases hm
  | cons hd tl ih =>
    rcases List.mem_cons.mp hm with hm | hm
    · subst hm
      simp [scanLoop, hn]
    · have htail := ih hm
      unfold scanLoop
      cases hhd : normalizeEnsName ensNormalize hd.ens_name with
      | none => exact List.mem_cons_of_mem _ htail
      | some v =>
        by_cases hshort : (endsWithEth hd.ens_name &&
            decide ((ethLabel hd.ens_name).length < 3)) = true
        · simp only [hshort, if_true]
          exact List.mem_cons_of_mem _ htail
        · simp only [Bool.not_eq_true] at hshort
          simp only [hshort, if_false]
          exact htail

theorem scanLoop_mem_of_short (ensNormalize : String → Option String)
    (rows : List MembershipRow) (m : MembershipRow) (hm : m ∈ rows)
    (v : String) (hn : normalizeEnsName ensNormalize m.ens_name = some v)
    (he : endsWithEth m.ens_name = true)
    (hs : (ethLabel m.ens_name).length < 3) :
    (⟨m.ens_name, tooShortReason (ethLabel m.ens_name).length, m.added_at⟩ :
        InvalidNameEntry) ∈ scanLoop ensNormalize rows := by
  induction rows with
  | nil => cases hm
  | cons hd tl ih =>
    rcases List.mem_cons.mp hm with hm | hm
    · subst hm
      simp [scanLoop, hn, he, hs]
    · have htail := ih hm
      unfold scanLoop
      cases hhd : normalizeEnsName ensNormalize hd.ens_name with
      | none => exact List.mem_cons_of_mem _ htail
      | some w =>
        by_cases hshort : (endsWithEth hd.ens_name &&
            decide ((ethLabel hd.ens_name).length < 3)) = true
        · simp only [hshort, if_true]
          exact List.mem_cons_of_mem _ htail
        · simp only [Bool.not_eq_true] at hshort
          simp only [hshort, if_false]
          exact htail

theorem scanLoop_mem_inv (ensNormalize : String → Option String)
    (rows : List MembershipRow) (e : InvalidNameEntry)
    (he : e ∈ scanLoop ensNormalize rows) :
    ∃ m, m ∈ rows ∧ e.name = m.ens_name ∧ e.added_at = m.added_at ∧
      (normalizeEnsName ensNormalize m.ens_name = none ∨
        (endsWithEth m.ens_name = true ∧ (ethLabel m.ens_name).length < 3)) := by
  induction rows with
  | nil => simp [scanLoop] at he
  | cons hd tl ih =>
    unfold scanLoop at he
    cases hhd : normalizeEnsName ensNormalize hd.ens_name with
    | none =>
      rw [hhd] at he
      rcases List.mem_cons.mp he with he | he
      · exact ⟨hd, List.mem_cons_self _ _, by simp [he], by simp [he],
          Or.inl hhd⟩
      · obtain ⟨m, hm, h₁, h₂, h₃⟩ := ih he
        exact ⟨m, List.mem_cons_of_mem _ hm, h₁, h₂, h₃⟩
    | some v =>
      rw [hhd] at he
      by_cases hshort : (endsWithEth hd.ens_name &&
          decide ((ethLabel hd.ens_name).length < 3)) = true
      · rw [if_pos hshort] at he
        rcases List.mem_cons.mp he with he | he
        · refine ⟨hd, List.mem_cons_self _ _, by simp [he], by simp [he],
            Or.inr ?_⟩
          have := And.intro (Bool.and_elim_left hshort)
            (Bool.and_elim_right hshort)
          exact ⟨this.1, by simpa using this.2⟩
        · obtain ⟨m, hm, h₁, h₂, h₃⟩ := ih he
          exact ⟨m, List.mem_cons_of_mem _ hm, h₁, h₂, h₃⟩
      · rw [if_neg hshort] at he
        obtain ⟨m, hm, h₁, h₂, h₃⟩ := ih he
        exact ⟨m, List.mem_cons_of_mem _ hm, h₁, h₂, h₃⟩

/--
C6: on an existing category the scanner reports `totalScanned` equal to the
number of memberships of the category, and a stored name is flagged exactly
when (a) normalization fails — with the normalization-failure reason — or
(b) it ends in `.eth` with a label shorter than 3 characters — with the
length-based reason.  (The witness below instantiates the `"ab.eth"` case:
flagged for length even though it normalizes.)
-/
theorem scan_reports_invalid_names (ensNormalize : String → Option String)
    (db : DB) (cat : String) (hcat : clubExists db cat = true) :
    (scanInvalidNamesGET ensNormalize db cat).totalScanned =
      (db.memberships.filter (fun m => m.club_name == cat)).length ∧
    (∀ m ∈ scannedMemberships db cat,
      (normalizeEnsName ensNormalize m.ens_name = none →
        (⟨m.ens_name, "Failed ENS normalization", m.added_at⟩ :
            InvalidNameEntry) ∈
          (scanInvalidNamesGET ensNormalize db cat).invalidNames) ∧
      (∀ v, normalizeEnsName ensNormalize m.ens_name = some v →
        endsWithEth m.ens_name = true → (ethLabel m.ens_name).length < 3 →
        (⟨m.ens_name, tooShortReason (ethLabel m.ens_name).length,
            m.added_at⟩ : InvalidNameEntry) ∈
          (scanInvalidNamesGET ensNormalize db cat).invalidNames)) ∧
    (∀ e ∈ (scanInvalidNamesGET ensNormalize db cat).invalidNames,
      ∃ m, m ∈ scannedMemberships db cat ∧ e.name = m.ens_name ∧
        e.added_at = m.added_at ∧
        (normalizeEnsName ensNormalize m.ens_name = none ∨
          (endsWithEth m.ens_name = true ∧
            (ethLabel m.ens_name).length < 3))) := by
  have hres : scanInvalidNamesGET ensNormalize db cat =
      { status := 200,
        totalScanned := (scannedMemberships db cat).length,
        invalidCount :=
          (scanLoop ensNormalize (scannedMemberships db cat)).length,
        invalidNames := scanLoop ensNormalize (scannedMemberships db cat) } := by
    simp [scanInvalidNamesGET, hcat]
  refine ⟨?_, ?_, ?_⟩
  · rw [hres]
    exact (List.perm_insertionSort _ _).length_eq
  · intro m hm
    refine ⟨fun hn => ?_, fun v hv he hs => ?_⟩
    · rw [hres]
      exact scanLoop_mem_of_norm_fail ensNormalize _ m hm hn
    · rw [hres]
      exact scanLoop_mem_of_short ensNormalize _ m hm v hv he hs
  · intro e he
    rw [hres] at he
    exact scanLoop_mem_inv ensNormalize _ e he

/-- Witness for C6: in `db0`, both memberships are scanned and `"ab.eth"`
(label length 2, yet normalizable) is reported with the length-based
reason. -/
theorem scan_reports_invalid_names_witness :
    (scanInvalidNamesGET ensNormTest db0 "club_a").totalScanned = 2 ∧
    (⟨"ab.eth", "Too short (2 chars, minimum is 3)", 3⟩ :
        InvalidNameEntry) ∈
      (scanInvalidNamesGET ensNormTest db0 "club_a").invalidNames := by
  constructor
  · have h := (scan_reports_invalid_names ensNormTest db0 "club_a"
      (by decide)).1
    rw [h]
    decide
  · have h := ((scan_reports_invalid_names ensNormTest db0 "club_a"
      (by decide)).2.1 ⟨"club_a", "ab.eth", 3⟩ (by decide)).2 "ab.eth"
      (by decide) (by decide) (by decide)
    simpa using h

/-! ## C1: the add-members validity gate -/

/--
C1 counterexample: when every requested name fails normalization, the
handler still rejects with 400 and inserts nothing, but the early return at
route lines 147–152 carries no `details` object — the response is not
"partitioned into invalidFormat and notInDatabase sub-reasons" as the claim
requires for every failing batch.  Here the category exists and
`"Not A Name!!"` fails normalization.
-/
theorem add_gate_partition_counterexample :
    clubExists db0 "club_a" = true ∧
    normalizeEnsName ensNormTest "Not A Name!!" = none ∧
    (addMembersPOST ensNormTest db0 "club_a" ["Not A Name!!"] 9).1.status =
      400 ∧
    (addMembersPOST ensNormTest db0 "club_a" ["Not A Name!!"] 9).1.invalidNames
      = ["Not A Name!!"] ∧
    (addMembersPOST ensNormTest db0 "club_a" ["Not A Name!!"] 9).1.details =
      none ∧
    (addMembersPOST ensNormTest db0 "club_a" ["Not A Name!!"] 9).2 = db0 := by
  decide

/--
C1 (amended): on an existing category, a batch within the cap containing an
invalid-format or not-in-database name is rejected atomically: 400, zero
inserts, the response listing all invalid names, with the
invalidFormat/notInDatabase partition present exactly when at least one
name normalized; and in every run, membership rows change only when both
checks pass for every requested name.
-/
theorem add_gate_all_or_nothing (ensNormalize : String → Option String)
    (db : DB) (cat : String) (names : List String) (now : Nat) :
    (names ≠ [] → names.length ≤ 1000 → clubExists db cat = true →
      (invalidFormatOf ensNormalize names ≠ [] ∨
        notFoundOf ensNormalize db.ens_names names ≠ []) →
      (addMembersPOST ensNormalize db cat names now).1.status = 400 ∧
      (addMembersPOST ensNormalize db cat names now).1.added = 0 ∧
      (addMembersPOST ensNormalize db cat names now).1.invalidNames =
        invalidFormatOf ensNormalize names ++
          notFoundOf ensNormalize db.ens_names names ∧
      (addMembersPOST ensNormalize db cat names now).1.details =
        (if normalizedOf ensNormalize names = [] then none
         else some (invalidFormatOf ensNormalize names,
           notFoundOf ensNormalize db.ens_names names)) ∧
      (addMembersPOST ensNormalize db cat names now).2 = db) ∧
    ((addMembersPOST ensNormalize db cat names now).2.memberships ≠
        db.memberships →
      invalidFormatOf ensNormalize names = [] ∧
      notFoundOf ensNormalize db.ens_names names = []) := by
  constructor
  · intro h₁ h₂ h₃ h₄
    have hne : names.isEmpty = false := by
      cases names with
      | nil => exact absurd rfl h₁
      | cons a l => rfl
    have hcap : ¬names.length > 1000 := by omega
    by_cases hnorm : normalizedOf ensNormalize names = []
    · have hnf : notFoundOf ensNormalize db.ens_names names = [] := by
        unfold notFoundOf
        rw [hnorm]
        rfl
      have hinv : invalidFormatOf ensNormalize names ≠ [] := by
        rcases h₄ with h | h
        · exact h
        · exact absurd hnf h
      have hnorm' : (normalizedOf ensNormalize names).isEmpty = true := by
        rw [hnorm]; rfl
      simp [addMembersPOST, hne, hcap, hnorm', hnorm, hnf]
    · have hnorm' : (normalizedOf ensNormalize names).isEmpty = false := by
        cases hc : normalizedOf ensNormalize names with
        | nil => exact absurd hc hnorm
        | cons a l => rfl
      have hall : (invalidFormatOf ensNormalize names ++
          notFoundOf ensNormalize db.ens_names names) ≠ [] := by
        rcases h₄ with h | h
        · intro hc
          exact h (List.append_eq_nil.mp hc).1
        · intro hc
          exact h (List.append_eq_nil.mp hc).2
      have hall' : (invalidFormatOf ensNormalize names ++
          notFoundOf ensNormalize db.ens_names names).isEmpty = false := by
        cases hc : invalidFormatOf ensNormalize names ++
            notFoundOf ensNormalize db.ens_names names with
        | nil => exact absurd hc hall
        | cons a l => rfl
      simp [addMembersPOST, hne, hcap, hnorm', h₃, hall', hnorm]
  · intro hchg
    by_cases hgate : invalidFormatOf ensNormalize names = [] ∧
        notFoundOf ensNormalize db.ens_names names = []
    · exact hgate
    · exfalso
      apply hchg
      by_cases c₁ : names.isEmpty = true
      · simp [addMembersPOST, c₁]
      · by_cases c₂ : names.length > 1000
        · simp [addMembersPOST, c₁, c₂]
        · by_cases c₃ : (normalizedOf ensNormalize names).isEmpty = true
          · simp [addMembersPOST, c₁, c₂, c₃]
          · by_cases c₄ : clubExists db cat = true
            · have hall : (invalidFormatOf ensNormalize names ++
                  notFoundOf ensNormalize db.ens_names names) ≠ [] := by
                intro hc
                exact hgate ⟨(List.append_eq_nil.mp hc).1,
                  (List.append_eq_nil.mp hc).2⟩
              have hall' : (invalidFormatOf ensNormalize names ++
                  notFoundOf ensNormalize db.ens_names names).isEmpty =
                    false := by
                cases hc : invalidFormatOf ensNormalize names ++
                    notFoundOf ensNormalize db.ens_names names with
                | nil => exact absurd hc hall
                | cons a l => rfl
              simp [addMembersPOST, c₁, c₂, c₃, c₄, hall']
            · simp [addMembersPOST, c₁, c₂, c₃, c₄]

/-- Witness for C1: the mixed batch `["vitalik.eth", "Not A Name!!"]` on
`db0` is rejected with the partition and no membership written. -/
theorem add_gate_all_or_nothing_witness :
    (addMembersPOST ensNormTest db0 "club_a"
        ["vitalik.eth", "Not A Name!!"] 9).1.status = 400 ∧
    (addMembersPOST ensNormTest db0 "club_a"
        ["vitalik.eth", "Not A Name!!"] 9).1.added = 0 ∧
    (addMembersPOST ensNormTest db0 "club_a"
        ["vitalik.eth", "Not A Name!!"] 9).1.invalidNames =
      invalidFormatOf ensNormTest ["vitalik.eth", "Not A Name!!"] ++
        notFoundOf ensNormTest db0.ens_names ["vitalik.eth", "Not A Name!!"] ∧
    (addMembersPOST ensNormTest db0 "club_a"
        ["vitalik.eth", "Not A Name!!"] 9).1.details =
      (if normalizedOf ensNormTest ["vitalik.eth", "Not A Name!!"] = [] then
        none
       else some (invalidFormatOf ensNormTest ["vitalik.eth", "Not A Name!!"],
         notFoundOf ensNormTest db0.ens_names
           ["vitalik.eth", "Not A Name!!"])) ∧
    (addMembersPOST ensNormTest db0 "club_a"
        ["vitalik.eth", "Not A Name!!"] 9).2 = db0 :=
  (add_gate_all_or_nothing ensNormTest db0 "club_a"
      ["vitalik.eth", "Not A Name!!"] 9).1
    (by decide) (by decide) (by decide) (Or.inl (by decide))

/-! ## C2: idempotent add -/

/--
C2: the add is an insert-if-absent on the `(category, name)` composite key.
Adding one valid, known, not-yet-member name reports `added = 1, skipped =
0`; immediately adding it again reports `added = 0, skipped = 1` and leaves
exactly one membership row for the key.
-/
theorem add_members_idempotent (ensNormalize : String → Option String)
    (db : DB) (cat n d w : String) (now₁ now₂ : Nat)
    (hcat : clubExists db cat = true)
    (hnorm : normalizeEnsName ensNormalize n = some w)
    (hvalid : validNamesOf ensNormalize db.ens_names [n] = [d])
    (hmem : db.memberships.any
      (fun m => m.club_name == cat && m.ens_name == d) = false) :
    (addMembersPOST ensNormalize db cat [n] now₁).1.status = 200 ∧
    (addMembersPOST ensNormalize db cat [n] now₁).1.added = 1 ∧
    (addMembersPOST ensNormalize db cat [n] now₁).1.skipped = 0 ∧
    (addMembersPOST ensNormalize
        (addMembersPOST ensNormalize db cat [n] now₁).2 cat [n] now₂).1.added
      = 0 ∧
    (addMembersPOST ensNormalize
        (addMembersPOST ensNormalize db cat [n] now₁).2 cat [n]
        now₂).1.skipped = 1 ∧
    ((addMembersPOST ensNormalize
        (addMembersPOST ensNormalize db cat [n] now₁).2 cat [n]
        now₂).2.memberships.filter
      (fun m => m.club_name == cat && m.ens_name == d)).length = 1 ∧
    (addMembersPOST ensNormalize
        (addMembersPOST ensNormalize db cat [n] now₁).2 cat [n]
        now₂).2.memberships = db.memberships ++ [⟨cat, d, now₁⟩] := by
  have hinv : invalidFormatOf ensNormalize [n] = [] := by
    simp [invalidFormatOf, hnorm]
  have hnormed : normalizedOf ensNormalize [n] = [w] := by
    simp [normalizedOf, hnorm]
  have hdmem : d ∈ validNamesOf ensNormalize db.ens_names [n] := by
    rw [hvalid]
    exact List.mem_cons_self _ _
  have hdmem' := hdmem
  rw [validNamesOf, List.mem_filter] at hdmem'
  have hlow : jsToLower d = jsToLower w := by
    have := hdmem'.2
    rw [hnormed] at this
    simpa using this
  have hnf : notFoundOf ensNormalize db.ens_names [n] = [] := by
    rw [notFoundOf, hnormed, hvalid]
    simp [hlow]
  have hrow : MembershipRow.mk cat d now₁ ∈
      ([⟨cat, d, now₁⟩] : List MembershipRow) := List.mem_cons_self _ _
  have hmemf : db.memberships.filter
      (fun m => m.club_name == cat && m.ens_name == d) = [] := by
    rcases hf : db.memberships.filter
        (fun m => m.club_name == cat && m.ens_name == d) with _ | ⟨a, l⟩
    · exact hf
    · exfalso
      have ha : a ∈ db.memberships.filter
          (fun m => m.club_name == cat && m.ens_name == d) := by
        rw [hf]; exact List.mem_cons_self _ _
      have := List.mem_filter.mp ha
      have hany : db.memberships.any
          (fun m => m.club_name == cat && m.ens_name == d) = true :=
        List.any_eq_true.mpr ⟨a, this.1, this.2⟩
      rw [hany] at hmem
      cases hmem
  have hrun₁ : addMembersPOST ensNormalize db cat [n] now₁ =
      ({ status := 200, added := 1, skipped := 0 },
       { db with memberships := db.memberships ++ [⟨cat, d, now₁⟩] }) := by
    simp [addMembersPOST, hnormed, hinv, hnf, hcat, hvalid, insertLoop, hmem]
  have hmem₂ : (db.memberships ++ [(⟨cat, d, now₁⟩ : MembershipRow)]).any
      (fun m => m.club_name == cat && m.ens_name == d) = true := by
    simp
  have hrun₂ : addMembersPOST ensNormalize
      ({ db with memberships := db.memberships ++ [⟨cat, d, now₁⟩] }) cat [n]
      now₂ =
      ({ status := 200, added := 0, skipped := 1 },
       { db with memberships := db.memberships ++ [⟨cat, d, now₁⟩] }) := by
    simp [addMembersPOST, hnormed, hinv, hnf, hcat, hvalid, insertLoop,
      hmem₂, clubExists]
    simpa [clubExists] using hcat
  rw [hrun₁, hrun₂]
  refine ⟨rfl, rfl, rfl, rfl, rfl, ?_, rfl⟩
  simp [List.filter_append, hmemf]

/-- The concrete database for the C2 witness: `club_a` exists, the known
name `vitalik.eth` is not yet a member. -/
def dbC2 : DB :=
  { clubs := [⟨"club_a", 0, 0⟩],
    ens_names := ["vitalik.eth"],
    memberships := [] }

/-- Witness for C2: adding `vitalik.eth` to `club_a` twice on `dbC2`. -/
theorem add_members_idempotent_witness :
    (addMembersPOST ensNormTest dbC2 "club_a" ["vitalik.eth"] 1).1.added = 1 ∧
    (addMembersPOST ensNormTest
        (addMembersPOST ensNormTest dbC2 "club_a" ["vitalik.eth"] 1).2
        "club_a" ["vitalik.eth"] 2).1.skipped = 1 ∧
    ((addMembersPOST ensNormTest
        (addMembersPOST ensNormTest dbC2 "club_a" ["vitalik.eth"] 1).2
        "club_a" ["vitalik.eth"] 2).2.memberships.filter
      (fun m => m.club_name == "club_a" && m.ens_name == "vitalik.eth")).length
      = 1 := by
  have h := add_members_idempotent ensNormTest dbC2 "club_a" "vitalik.eth"
    "vitalik.eth" "vitalik.eth" 1 2 (by decide) (by decide) (by decide)
    (by decide)
  exact ⟨h.2.1, h.2.2.2.2.1, h.2.2.2.2.2.1⟩

/-! ## C3: bulk remove -/

/-- The surviving rows after the delete loop: exactly those matching none
of the requested names (case-insensitively) on this category. -/
theorem deleteLoop_rows (cat : String) (ns : List String)
    (rows : List MembershipRow) :
    (deleteLoop cat ns rows).2 =
      rows.filter (fun m => !(ns.any (fun n => matchesRemoval cat n m))) := by
  induction ns generalizing rows with
  | nil => simp [deleteLoop]
  | cons n rest ih =>
    simp only [deleteLoop]
    rw [ih, List.filter_filter]
    apply List.filter_congr
    intro m _
    simp [Bool.and_comm]

/-- The `removed` counter of the delete loop: when the lowered requested
names are pairwise distinct, it counts the requested names having at least
one case-insensitive match among the original rows. -/
theorem deleteLoop_removed (cat : String) (ns : List String)
    (rows : List MembershipRow)
    (hnd : (ns.map jsToLower).Nodup) :
    (deleteLoop cat ns rows).1 =
      (ns.filter
        (fun n => rows.any (fun m => matchesRemoval cat n m))).length := by
  induction ns generalizing rows with
  | nil => simp [deleteLoop]
  | cons n rest ih =>
    have hnotin : jsToLower n ∉ rest.map jsToLower :=
      (List.nodup_cons.mp (by simpa using hnd)).1
    have hnd' : (rest.map jsToLower).Nodup :=
      (List.nodup_cons.mp (by simpa using hnd)).2
    have hagree : ∀ n' ∈ rest,
        ((rows.filter (fun m => !matchesRemoval cat n m)).any
          (fun m => matchesRemoval cat n' m)) =
        (rows.any (fun m => matchesRemoval cat n' m)) := by
      intro n' hn'
      have hne : jsToLower n' ≠ jsToLower n := by
        intro hc
        exact hnotin (hc ▸ List.mem_map_of_mem jsToLower hn')
      cases hr : rows.any (fun m => matchesRemoval cat n' m) with
      | true =>
        obtain ⟨m, hm, hpm⟩ := List.any_eq_true.mp hr
        have hsurv : (!matchesRemoval cat n m) = true := by
          by_contra hc
          have hc' : matchesRemoval cat n m = true := by
            cases hv : matchesRemoval cat n m with
            | true => rfl
            | false => exact absurd (by simp [hv]) hc
          have h₁ : jsToLower m.ens_name = jsToLower n := by
            have := (Bool.and_elim_right hc')
            simpa using this
          have h₂ : jsToLower m.ens_name = jsToLower n' := by
            have := (Bool.and_elim_right hpm)
            simpa [matchesRemoval] using this
          exact hne (h₂ ▸ h₁)
        exact List.any_eq_true.mpr
          ⟨m, List.mem_filter.mpr ⟨hm, hsurv⟩, hpm⟩
      | false =>
        cases hf : (rows.filter (fun m => !matchesRemoval cat n m)).any
            (fun m => matchesRemoval cat n' m) with
        | false => rfl
        | true =>
          obtain ⟨m, hm, hpm⟩ := List.any_eq_true.mp hf
          have hmr : m ∈ rows := (List.mem_filter.mp hm).1
          have : rows.any (fun m => matchesRemoval cat n' m) = true :=
            List.any_eq_true.mpr ⟨m, hmr, hpm⟩
          rw [this] at hr
          cases hr
    have hfilters :
        (rest.filter (fun n' =>
          (rows.filter (fun m => !matchesRemoval cat n m)).any
            (fun m => matchesRemoval cat n' m))) =
        (rest.filter (fun n' =>
          rows.any (fun m => matchesRemoval cat n' m))) :=
      List.filter_congr hagree
    simp only [deleteLoop]
    rw [ih _ hnd', hfilters, List.filter_cons]
    by_cases hany : rows.any (fun m => matchesRemoval cat n m) = true
    · obtain ⟨m, hm, hpm⟩ := List.any_eq_true.mp hany
      have hmem' : m ∈ rows.filter (matchesRemoval cat n) :=
        List.mem_filter.mpr ⟨hm, hpm⟩
      have hlen : (rows.filter (matchesRemoval cat n)).length > 0 :=
        List.length_pos.mpr (List.ne_nil_of_mem hmem')
      rw [if_pos hlen, if_pos (by simpa using hany)]
      simp
    · have hany' : rows.any (fun m => matchesRemoval cat n m) = false := by
        cases hv : rows.any (fun m => matchesRemoval cat n m) with
        | false => rfl
        | true => exact absurd hv hany
      have hempty : rows.filter (matchesRemoval cat n) = [] := by
        rcases hf : rows.filter (matchesRemoval cat n) with _ | ⟨a, l⟩
        · rfl
        · exfalso
          have ha : a ∈ rows.filter (matchesRemoval cat n) := by
            rw [hf]; exact List.mem_cons_self _ _
          have := List.mem_filter.mp ha
          have : rows.any (fun m => matchesRemoval cat n m) = true :=
            List.any_eq_true.mpr ⟨a, this.1, this.2⟩
          rw [this] at hany'
          cases hany'
      rw [hempty]
      rw [if_neg (by simp), if_neg (by simp [hany'])]

/--
C3 counterexample: `removed` does not equal the number of rows actually
deleted.  With two case-variant membership rows `Ab.eth` and `ab.eth` in
the same category, one requested name deletes both rows (the `DELETE` is
case-insensitive) but bumps `removed` once, so the handler reports
`removed = 1` while two rows were removed.
-/
def dbC3 : DB :=
  { clubs := [⟨"club_a", 2, 0⟩],
    ens_names := [],
    memberships := [⟨"club_a", "Ab.eth", 0⟩, ⟨"club_a", "ab.eth", 1⟩] }

theorem remove_counts_names_not_rows_counterexample :
    clubExists dbC3 "club_a" = true ∧
    dbC3.memberships.length = 2 ∧
    (removeMembersDELETE ensNormTest dbC3 "club_a" ["ab.eth"]).1.status =
      200 ∧
    (removeMembersDELETE ensNormTest dbC3 "club_a"
      ["ab.eth"]).2.memberships = [] ∧
    (removeMembersDELETE ensNormTest dbC3 "club_a" ["ab.eth"]).1.removed =
      1 := by
  decide

/--
C3 (amended): on an existing category, the remove handler deletes, inside
one actor-stamped transaction, exactly the membership rows matching some
requested (normalized) name case-insensitively, succeeds with status 200,
and returns `removed` equal to the number of requested names whose delete
removed at least one row (not the number of rows); a requested name that is
not currently a member contributes nothing to `removed` and raises no
error.
-/
theorem remove_members_counts_names (ensNormalize : String → Option String)
    (db : DB) (cat : String) (names : List String)
    (h₁ : names ≠ []) (h₂ : names.length ≤ 1000)
    (h₃ : clubExists db cat = true)
    (h₄ : normalizedOf ensNormalize names ≠ [])
    (hnd : ((normalizedOf ensNormalize names).map jsToLower).Nodup) :
    (removeMembersDELETE ensNormalize db cat names).1.status = 200 ∧
    (removeMembersDELETE ensNormalize db cat names).1.removed =
      ((normalizedOf ensNormalize names).filter
        (fun n => db.memberships.any
          (fun m => matchesRemoval cat n m))).length ∧
    (removeMembersDELETE ensNormalize db cat names).2.memberships =
      db.memberships.filter
        (fun m => !((normalizedOf ensNormalize names).any
          (fun n => matchesRemoval cat n m))) ∧
    (removeMembersDELETE ensNormalize db cat names).2.clubs = db.clubs := by
  have hne : names.isEmpty = false := by
    cases names with
    | nil => exact absurd rfl h₁
    | cons a l => rfl
  have hcap : ¬names.length > 1000 := by omega
  have hnorm' : (normalizedOf ensNormalize names).isEmpty = false := by
    cases hc : normalizedOf ensNormalize names with
    | nil => exact absurd hc h₄
    | cons a l => rfl
  have hrun : removeMembersDELETE ensNormalize db cat names =
      ({ status := 200,
         removed := (deleteLoop cat (normalizedOf ensNormalize names)
           db.memberships).1 },
       { db with memberships :=
          (deleteLoop cat (normalizedOf ensNormalize names)
            db.memberships).2 }) := by
    simp [removeMembersDELETE, hne, hcap, hnorm', h₃]
  rw [hrun]
  exact ⟨rfl, deleteLoop_removed cat _ db.memberships hnd,
    deleteLoop_rows cat _ db.memberships, rfl⟩

/-- Witness for C3: removing member `vitalik.eth` and non-member
`nick.eth` from `club_a` in `db0` yields `removed = 1` and no error. -/
theorem remove_members_counts_names_witness :
    (removeMembersDELETE ensNormTest db0 "club_a"
      ["vitalik.eth", "nick.eth"]).1.status = 200 ∧
    (removeMembersDELETE ensNormTest db0 "club_a"
      ["vitalik.eth", "nick.eth"]).1.removed =
      ((normalizedOf ensNormTest ["vitalik.eth", "nick.eth"]).filter
        (fun n => db0.memberships.any
          (fun m => matchesRemoval "club_a" n m))).length := by
  have h := remove_members_counts_names ensNormTest db0 "club_a"
    ["vitalik.eth", "nick.eth"] (by decide) (by decide) (by decide)
    (by decide) (by decide)
  exact ⟨h.1, h.2.1⟩

/-! ## C8: which paths write the clubs row -/

/-- The audited add handler only ever replaces the memberships table. -/
theorem addMembersPOST_snd (ensNormalize : String → Option String) (db : DB)
    (cat : String) (names : List String) (now : Nat) :
    (addMembersPOST ensNormalize db cat names now).2 =
      { db with memberships :=
          (addMembersPOST ensNormalize db cat names now).2.memberships } := by
  by_cases c₁ : names.isEmpty = true
  · simp [addMembersPOST, c₁]
  · by_cases c₂ : names.length > 1000
    · simp [addMembersPOST, c₁, c₂]
    · by_cases c₃ : (normalizedOf ensNormalize names).isEmpty = true
      · simp [addMembersPOST, c₁, c₂, c₃]
      · by_cases c₄ : clubExists db cat = true
        · by_cases c₅ : (invalidFormatOf ensNormalize names ++
              notFoundOf ensNormalize db.ens_names names).isEmpty = true
          · simp [addMembersPOST, c₁, c₂, c₃, c₄, c₅]
          · simp [addMembersPOST, c₁, c₂, c₃, c₄, c₅]
        · simp [addMembersPOST, c₁, c₂, c₃, c₄]

/-- The audited remove handler only ever replaces the memberships table. -/
theorem removeMembersDELETE_snd (ensNormalize : String → Option String)
    (db : DB) (cat : String) (names : List String) :
    (removeMembersDELETE ensNormalize db cat names).2 =
      { db with memberships :=
          (removeMembersDELETE ensNormalize db cat names).2.memberships } := by
  by_cases c₁ : names.isEmpty = true
  · simp [removeMembersDELETE, c₁]
  · by_cases c₂ : names.length > 1000
    · simp [removeMembersDELETE, c₁, c₂]
    · by_cases c₃ : (normalizedOf ensNormalize names).isEmpty = true
      · simp [removeMembersDELETE, c₁, c₂, c₃]
      · by_cases c₄ : clubExists db cat = true
        · simp [removeMembersDELETE, c₁, c₂, c₃, c₄]
        · simp [removeMembersDELETE, c₁, c₂, c₃, c₄]

/--
C8 counterexample: the claim covers the `members/route.ts` bulk-add path,
but that handler directly recomputes `member_count` and stamps `updated_at`
on the clubs row (`UPDATE clubs SET member_count = (SELECT COUNT(*) ...),
updated_at = NOW()`, route lines 96–102): after adding `x.eth` the clubs
row changed from `(club_a, 0, 0)` to `(club_a, 1, 7)`.
-/
def dbC8 : DB :=
  { clubs := [⟨"club_a", 0, 0⟩],
    ens_names := ["x.eth"],
    memberships := [] }

theorem legacy_add_writes_clubs_counterexample :
    (addMembersLegacyPOST dbC8 "club_a" ["x.eth"] 7).1.added = 1 ∧
    (addMembersLegacyPOST dbC8 "club_a" ["x.eth"] 7).2.clubs =
      [⟨"club_a", 1, 7⟩] ∧
    (addMembersLegacyPOST dbC8 "club_a" ["x.eth"] 7).2.clubs ≠
      dbC8.clubs := by
  decide

/--
C8 (amended): the audited bulk add and remove handlers (the
`invalid-names/route.ts` POST/DELETE pair) insert or delete membership rows
only and never touch the clubs table — `member_count` is left to the
database trigger; the legacy `members/route.ts` variant, by contrast,
writes `member_count` and `updated_at` directly (see the counterexample).
-/
theorem audited_paths_leave_clubs_untouched
    (ensNormalize : String → Option String) (db : DB) (cat : String)
    (names : List String) (now : Nat) :
    (addMembersPOST ensNormalize db cat names now).2.clubs = db.clubs ∧
    (addMembersPOST ensNormalize db cat names now).2.ens_names =
      db.ens_names ∧
    (removeMembersDELETE ensNormalize db cat names).2.clubs = db.clubs ∧
    (removeMembersDELETE ensNormalize db cat names).2.ens_names =
      db.ens_names := by
  refine ⟨?_, ?_, ?_, ?_⟩
  · rw [addMembersPOST_snd]
  · rw [addMembersPOST_snd]
  · rw [removeMembersDELETE_snd]
  · rw [removeMembersDELETE_snd]

/-! ## Audit log entries and the activity aggregator
(`src/src/app/activity/page.tsx`, `src/unnamed/part_019`) -/

/-- JSON values appearing in audit `old_data`/`new_data` snapshots. -/
inductive JVal where
  | null
  | bool (b : Bool)
  | num (n : Int)
  | str (s : String)
  deriving DecidableEq, Repr

/-- Canonical serialization of a snapshot value, modelling
`JSON.stringify` on the flat values stored in audit snapshots (string
escaping is omitted: the concrete inputs used below contain no quotes or
backslashes). -/
def JVal.stringify : JVal → String
  | .null => "null"
  | .bool true => "true"
  | .bool false => "false"
  | .num n => toString n
  | .str s => "\"" ++ s ++ "\""

/-- `JSON.stringify` lifted to a possibly-`undefined` value:
`JSON.stringify(undefined)` is `undefined`, modelled as `none`. -/
def jshow (v : Option JVal) : Option String := v.map JVal.stringify

/-- The comparison `JSON.stringify(a) !== JSON.stringify(b)` used by the
aggregator and the field differ. -/
def jdiff (a b : Option JVal) : Bool := !(jshow a == jshow b)

/-- A row of `clubs_audit_log` (the `db_user` column, never read by the
embedded code, is omitted).  `created_at` is a millisecond timestamp
(`new Date(...).getTime()`). -/
structure AuditLogEntry where
  id : Nat
  table_name : String
  operation : String
  record_key : String
  old_data : Option (List (String × JVal))
  new_data : Option (List (String × JVal))
  actor_address : Option String
  created_at : Int
  deriving DecidableEq, Repr

/-- `snapshot[key]`: `none` models JS `undefined` for a missing key. -/
def jsonGet (d : List (String × JVal)) (k : String) : Option JVal :=
  (d.find? (fun p => p.1 == k)).map (fun p => p.2)

/-- `Object.keys(snapshot)`. -/
def jsonKeys (d : List (String × JVal)) : List String :=
  d.map (fun p => p.1)

/-- `entry.old_data?.[key]`: `undefined` when the snapshot itself is null
or lacks the key. -/
def snapshotGet (d : Option (List (String × JVal))) (k : String) :
    Option JVal :=
  d.bind (fun m => jsonGet m k)

/-- The aggregator's bookkeeping ignore-list
(`page.tsx` line 93). -/
def aggregatorIgnored : List String :=
  ["created_at", "updated_at", "member_count", "last_sales_update"]

/-- `meaningfulChanges` of a clubs UPDATE entry
(`page.tsx` lines 92–95): the keys of `new_data` outside the ignore-list
whose serialized value differs from `old_data`'s. -/
def meaningfulChanges (e : AuditLogEntry) : List String :=
  match e.new_data with
  | none => []
  | some nd =>
    (jsonKeys nd).filter (fun key =>
      if aggregatorIgnored.contains key then false
      else jdiff (snapshotGet e.old_data key) (snapshotGet e.new_data key))

/-- The `related` filter (`page.tsx` lines 71–76): other unprocessed
entries by the same actor within one second. -/
def relatedEntries (raw : List AuditLogEntry) (processed : List Nat)
    (entry : AuditLogEntry) : List AuditLogEntry :=
  raw.filter (fun e =>
    if e.id == entry.id || processed.contains e.id then false
    else decide ((e.created_at - entry.created_at).natAbs < 1000) &&
      e.actor_address == entry.actor_address)

/-- `entry.record_key.split(':')[0]`: the club-name part of a membership
record key. -/
def clubOfKey (k : String) : String :=
  ⟨k.data.takeWhile (fun c => !(c == ':'))⟩

/-- The triggered-sub-event filter (`page.tsx` lines 83–85): clubs UPDATEs
on the same club among the related entries. -/
def subEventsFor (related : List AuditLogEntry) (clubName : String) :
    List AuditLogEntry :=
  related.filter (fun e =>
    e.table_name == "clubs" && e.operation == "UPDATE" &&
      e.record_key == clubName)

/-- One grouped display event: a main entry plus triggered sub-events. -/
structure GroupedEntry where
  main : AuditLogEntry
  subEvents : List AuditLogEntry
  deriving DecidableEq, Repr

/--
The aggregation loop of `page.tsx` lines 63–108 (identical in
`ActivitySection.tsx` lines 40–80 up to its ignore-list): walk the page in
order with a processed-id set; a membership entry absorbs at most the first
matching clubs UPDATE as its triggered sub-event; a clubs UPDATE with no
meaningful change is suppressed; everything else passes through standalone.
-/
def groupGo (raw : List AuditLogEntry) :
    List AuditLogEntry → List Nat → List GroupedEntry
  | [], _ => []
  | entry :: rest, processed =>
    if processed.contains entry.id then groupGo raw rest processed
    else
      let related := relatedEntries raw processed entry
      if entry.table_name == "club_memberships" then
        let clubName := clubOfKey entry.record_key
        let subEvents := subEventsFor related clubName
        let matchedSubEvent :=
          match subEvents with
          | [] => []
          | s :: _ => [s]
        ⟨entry, matchedSubEvent⟩ ::
          groupGo raw rest
            ((processed ++ matchedSubEvent.map (fun e => e.id)) ++ [entry.id])
      else if entry.table_name == "clubs" && entry.operation == "UPDATE" then
        if (meaningfulChanges entry).length > 0 then
          ⟨entry, []⟩ :: groupGo raw rest (processed ++ [entry.id])
        else groupGo raw rest (processed ++ [entry.id])
      else
        ⟨entry, []⟩ :: groupGo raw rest (processed ++ [entry.id])

/-- `groupedEntries` (`page.tsx` line 63): run the loop over the raw page. -/
def groupEntries (raw : List AuditLogEntry) : List GroupedEntry :=
  groupGo raw raw []

/-- The change-display ignore-list (`page.tsx` line 218). -/
def hiddenFields : List String :=
  ["created_at", "updated_at", "added_at", "member_count", "club_name",
   "ens_name", "name"]

/-- `String(value ?? '')`. -/
def jsString : Option JVal → String
  | none => ""
  | some .null => ""
  | some (.bool true) => "true"
  | some (.bool false) => "false"
  | some (.num n) => toString n
  | some (.str s) => s

/-- One rendered field change; the source's `from`/`to` fields are named
`fromVal`/`toVal` here. -/
structure FieldChange where
  field : String
  fromVal : String
  toVal : String
  deriving DecidableEq, Repr

/--
Embedding of `getChangedFields` (`page.tsx` lines 248–286): nothing for
membership entries; non-empty non-null fields for INSERTs; nothing for
DELETEs; for UPDATEs the keys of `new_data` outside the ignore-list whose
serialized values differ.
-/
def getChangedFields (entry : AuditLogEntry) : List FieldChange :=
  if entry.table_name == "club_memberships" then []
  else if entry.operation == "INSERT" then
    match entry.new_data with
    | none => []
    | some nd =>
      (nd.filter (fun p => !hiddenFields.contains p.1 &&
          !(p.2 == JVal.null) && !(p.2 == JVal.str ""))).map
        (fun p => ⟨p.1, "—", jsString (some p.2)⟩)
  else if entry.operation == "DELETE" then []
  else
    match entry.old_data, entry.new_data with
    | some od, some nd =>
      (jsonKeys nd).filterMap (fun key =>
        if hiddenFields.contains key then none
        else if jdiff (jsonGet od key) (jsonGet nd key) then
          some ⟨key, jsString (jsonGet od key), jsString (jsonGet nd key)⟩
        else none)
    | _, _ => []

/-- Modelled from the spec for the C9 comparison: "the symmetric set of
changed keys by comparing `old_data`/`new_data` value-by-value (deep
equality via canonical serialization), excluding the same
bookkeeping-field ignore-list" — the keys of either snapshot, without
duplicates, at which the serialized values differ. -/
def specSymmetricChangedKeys (entry : AuditLogEntry) : List String :=
  match entry.old_data, entry.new_data with
  | some od, some nd =>
    (jsonKeys od ++ jsonKeys nd).dedup.filter (fun key =>
      !hiddenFields.contains key && jdiff (jsonGet od key) (jsonGet nd key))
  | _, _ => []

/-! ## The activity read route (`src/unnamed/part_019`) -/

/-- The query parameters `fetchActivity` (src/unnamed/part_006 lines
74–100) puts on the request URL.  The route itself reads only `page`,
`limit`, `table`, `operation`, `actor` and `hideSystem`
(part_019 lines 24–30); `category`, `name` and `days` are sent by the
client but never read by the route. -/
structure ActivityQueryParams where
  page : Nat
  limit : Nat
  table : Option String
  operation : Option String
  actor : Option String
  hideSystem : Bool
  category : Option String
  name : Option String
  days : Option Nat
  deriving DecidableEq, Repr

/-- The WHERE clause built in part_019 lines 37–59: hide-system, table,
operation, and case-insensitive actor conditions (a NULL actor never
matches an actor filter, as in SQL). -/
def activityWhere (p : ActivityQueryParams) (e : AuditLogEntry) : Bool :=
  (!p.hideSystem || !(e.actor_address == none)) &&
  (match p.table with
   | none => true
   | some t => e.table_name == t) &&
  (match p.operation with
   | none => true
   | some op => e.operation == op) &&
  (match p.actor with
   | none => true
   | some a => e.actor_address.map jsToLower == some (jsToLower a))

/-- The JSON payload of the activity route. -/
structure ActivityPage where
  entries : List AuditLogEntry
  page : Nat
  limit : Nat
  totalEntries : Nat
  totalPages : Nat
  deriving DecidableEq, Repr

/--
Embedding of the activity GET handler (part_019 lines 22–89), after the
auth short-circuits: the count query and the page query share the same
WHERE clause; the page is ordered newest-first and cut by
`LIMIT/OFFSET`; `totalPages` is `Math.ceil(totalCount / limit) || 1`.
-/
def activityGET (log : List AuditLogEntry) (p : ActivityQueryParams) :
    ActivityPage :=
  let offset := (p.page - 1) * p.limit
  let matching := log.filter (activityWhere p)
  let totalCount := matching.length
  let sorted := matching.insertionSort
    (fun a b => b.created_at ≤ a.created_at)
  let pageEntries := (sorted.drop offset).take p.limit
  let ceilPages := (totalCount + p.limit - 1) / p.limit
  { entries := pageEntries, page := p.page, limit := p.limit,
    totalEntries := totalCount,
    totalPages := if ceilPages = 0 then 1 else ceilPages }

/-! ## C9: the displayed changed-field set -/

/-- A clubs UPDATE whose `old_data` has a `description` that was dropped
from `new_data` — the symmetric diff sees it, the display diff does not. -/
def entryDescRemoved : AuditLogEntry :=
  { id := 5, table_name := "clubs", operation := "UPDATE",
    record_key := "club_a",
    old_data := some [("description", JVal.str "old words")],
    new_data := some [],
    actor_address := some "0xadmin", created_at := 0 }

/--
C9 counterexample: `getChangedFields` iterates only the keys of
`new_data` (`page.tsx` line 272), so a key present in `old_data` but
absent from `new_data` is not reported: here the computed set is empty
while the spec's symmetric set is `description`.
-/
theorem changed_fields_counterexample :
    getChangedFields entryDescRemoved = [] ∧
    specSymmetricChangedKeys entryDescRemoved = ["description"] := by
  decide

/--
C9 (amended): for an UPDATE entry with both snapshots present, the
changed-field set computed for display consists exactly of the keys of
`new_data`, outside the ignore-list, whose canonically-serialized value
differs from `old_data`'s; it is always a subset of the spec's symmetric
changed-key set, but a key present only in `old_data` is never included.
-/
theorem changed_fields_characterization (e : AuditLogEntry)
    (od nd : List (String × JVal))
    (ht : e.table_name ≠ "club_memberships")
    (hop : e.operation = "UPDATE")
    (hod : e.old_data = some od) (hnd : e.new_data = some nd) :
    (∀ k, (∃ c ∈ getChangedFields e, c.field = k) ↔
      (k ∈ jsonKeys nd ∧ hiddenFields.contains k = false ∧
        jdiff (jsonGet od k) (jsonGet nd k) = true)) ∧
    (∀ k, (∃ c ∈ getChangedFields e, c.field = k) →
      k ∈ specSymmetricChangedKeys e) := by
  have ht' : (e.table_name == "club_memberships") = false := by
    simp [ht]
  have hop₁ : (e.operation == "INSERT") = false := by simp [hop]
  have hop₂ : (e.operation == "DELETE") = false := by simp [hop]
  have hgf : getChangedFields e = (jsonKeys nd).filterMap (fun key =>
      if hiddenFields.contains key then none
      else if jdiff (jsonGet od key) (jsonGet nd key) then
        some ⟨key, jsString (jsonGet od key), jsString (jsonGet nd key)⟩
      else none) := by
    simp [getChangedFields, ht', hop₁, hop₂, hod, hnd]
  have hchar : ∀ k, (∃ c ∈ getChangedFields e, c.field = k) ↔
      (k ∈ jsonKeys nd ∧ hiddenFields.contains k = false ∧
        jdiff (jsonGet od k) (jsonGet nd k) = true) := by
    intro k
    constructor
    · rintro ⟨c, hc, rfl⟩
      rw [hgf] at hc
      obtain ⟨a, ha, hfa⟩ := List.mem_filterMap.mp hc
      by_cases hh : hiddenFields.contains a = true
      · rw [if_pos hh] at hfa
        cases hfa
      · have hh' : hiddenFields.contains a = false := by
          cases hv : hiddenFields.contains a with
          | false => rfl
          | true => exact absurd hv hh
        rw [if_neg hh] at hfa
        by_cases hd : jdiff (jsonGet od a) (jsonGet nd a) = true
        · rw [if_pos hd] at hfa
          cases hfa
          exact ⟨ha, hh', hd⟩
        · rw [if_neg hd] at hfa
          cases hfa
    · rintro ⟨hk, hh, hd⟩
      refine ⟨⟨k, jsString (jsonGet od k), jsString (jsonGet nd k)⟩, ?_, rfl⟩
      rw [hgf]
      have hh'' : ¬(hiddenFields.contains k = true) := by
        rw [hh]
        exact Bool.false_ne_true
      exact List.mem_filterMap.mpr ⟨k, hk, by rw [if_neg hh'', if_pos hd]⟩
  refine ⟨hchar, ?_⟩
  intro k hk
  obtain ⟨hkey, hh, hd⟩ := (hchar k).mp hk
  have hspec : specSymmetricChangedKeys e =
      (jsonKeys od ++ jsonKeys nd).dedup.filter (fun key =>
        !hiddenFields.contains key &&
          jdiff (jsonGet od key) (jsonGet nd key)) := by
    simp [specSymmetricChangedKeys, hod, hnd]
  rw [hspec]
  refine List.mem_filter.mpr ⟨?_, by rw [hh, hd]; rfl⟩
  exact List.mem_dedup.mpr (List.mem_append_right _ hkey)

/-- A clubs UPDATE changing `description` (and bumping `member_count`). -/
def entryDescUpd : AuditLogEntry :=
  { id := 2, table_name := "clubs", operation := "UPDATE",
    record_key := "club_a",
    old_data := some [("description", JVal.str "a"),
      ("member_count", JVal.num 1)],
    new_data := some [("description", JVal.str "b"),
      ("member_count", JVal.num 2)],
    actor_address := some "0xadmin", created_at := 1500 }

/-- Witness for C9 on `entryDescUpd`: `description` is reported (it changed
in `new_data`) and lies in the spec's symmetric set. -/
theorem changed_fields_characterization_witness :
    (∃ c ∈ getChangedFields entryDescUpd, c.field = "description") ∧
    "description" ∈ specSymmetricChangedKeys entryDescUpd := by
  have h := changed_fields_characterization entryDescUpd
    [("description", JVal.str "a"), ("member_count", JVal.num 1)]
    [("description", JVal.str "b"), ("member_count", JVal.num 2)]
    (by decide) rfl rfl rfl
  have hmem := (h.1 "description").mpr ⟨by decide, by decide, by decide⟩
  exact ⟨hmem, h.2 "description" hmem⟩

/-! ## C10: the activity route's filters -/

/-- An audit entry for `club_b`, 400 days old relative to the
hypothetical "now" of 34 560 000 000 ms. -/
def entryC10 : AuditLogEntry :=
  { id := 9, table_name := "clubs", operation := "UPDATE",
    record_key := "club_b",
    old_data := some [("description", JVal.str "x")],
    new_data := some [("description", JVal.str "y")],
    actor_address := some "0xadmin", created_at := 0 }

/-- The request `fetchActivity` builds for an ActivitySection scoped to
`club_a` with `days = 365`. -/
def paramsC10 : ActivityQueryParams :=
  { page := 1, limit := 50, table := none, operation := none, actor := none,
    hideSystem := false, category := some "club_a",
    name := some "vitalik.eth", days := some 365 }

/--
C10: the route ignores the `category`, `name` and `days` parameters the
client sends — an entry for a different category, arbitrarily old, is
still returned, and the response is identical to the one for the
unfiltered request.  (The supported table/operation/actor/hideSystem
filters are shared by the page and count queries inside `activityGET`.)
-/
theorem activity_route_ignores_category_name_days :
    (activityGET [entryC10] paramsC10).entries = [entryC10] ∧
    (activityGET [entryC10] paramsC10).totalEntries = 1 ∧
    entryC10.record_key ≠ "club_a" ∧
    activityGET [entryC10] paramsC10 =
      activityGET [entryC10]
        { paramsC10 with category := none, name := none, days := none } := by
  decide

/-! ## C4 and C5: grouping of membership changes and category updates -/

/-- Distinct entries of a page with pairwise-distinct ids have distinct
ids. -/
theorem id_inj_of_nodup (raw : List AuditLogEntry)
    (hnd : (raw.map (fun e => e.id)).Nodup) :
    ∀ a ∈ raw, ∀ b ∈ raw, a ≠ b → a.id ≠ b.id := by
  have hp : raw.Pairwise (fun a b => a.id ≠ b.id) := List.pairwise_map.mp hnd
  intro a ha b hb hne
  exact hp.forall (fun x y hxy => hxy.symm) ha hb hne

/-- Elements of the triggered-sub-event list come from the page. -/
theorem subEventsFor_subset (raw : List AuditLogEntry) (processed : List Nat)
    (entry : AuditLogEntry) (clubName : String) (s : AuditLogEntry)
    (hs : s ∈ subEventsFor (relatedEntries raw processed entry) clubName) :
    s ∈ raw :=
  List.mem_of_mem_filter (List.mem_of_mem_filter hs)

/--
Loop invariant for the aggregation: an entry of the page whose id is not
yet processed, and which is a clubs UPDATE with at least one meaningful
change, ends up in the output — either as a main event or absorbed as a
sub-event.  (It can be skipped only through the processed set, which grows
only by emitted ids and absorbed sub-event ids.)
-/
theorem groupGo_preserves_meaningful_update (raw : List AuditLogEntry)
    (hnd : (raw.map (fun e => e.id)).Nodup)
    (u : AuditLogEntry) (huraw : u ∈ raw)
    (ht : u.table_name = "clubs") (hop : u.operation = "UPDATE")
    (hmc : 0 < (meaningfulChanges u).length) :
    ∀ (pending : List AuditLogEntry) (processed : List Nat),
      (∀ x ∈ pending, x ∈ raw) → u ∈ pending → u.id ∉ processed →
      (∃ g ∈ groupGo raw pending processed, g.main = u) ∨
      (∃ g ∈ groupGo raw pending processed, u ∈ g.subEvents) := by
  intro pending
  induction pending with
  | nil =>
    intro processed _ hu _
    cases hu
  | cons e rest ih =>
    intro processed hsub hu hup
    have herw : e ∈ raw := hsub e (List.mem_cons_self _ _)
    have hsub' : ∀ x ∈ rest, x ∈ raw :=
      fun x hx => hsub x (List.mem_cons_of_mem _ hx)
    cases hskip : processed.contains e.id with
    | true =>
      have hne : u ≠ e := by
        intro hc
        subst hc
        exact hup (by simpa using hskip)
      have hurest : u ∈ rest := by
        rcases List.mem_cons.mp hu with hc | hc
        · exact absurd hc hne
        · exact hc
      have hres := ih processed hsub' hurest hup
      rw [show groupGo raw (e :: rest) processed =
        groupGo raw rest processed by rw [groupGo, if_pos hskip]]
      exact hres
    | false =>
      have hnskip : ¬(processed.contains e.id = true) := by
        rw [hskip]
        exact Bool.false_ne_true
      by_cases hue : u = e
      · subst hue
        have h₁ : (u.table_name == "club_memberships") = false := by
          simp [ht]
        have h₂ : (u.table_name == "clubs" && u.operation == "UPDATE") =
            true := by simp [ht, hop]
        have h₃ : (meaningfulChanges u).length > 0 := hmc
        rw [show groupGo raw (u :: rest) processed =
            ⟨u, []⟩ :: groupGo raw rest (processed ++ [u.id]) by
          rw [groupGo, if_neg hnskip]
          simp only [h₁, h₂, Bool.false_eq_true, if_false, if_true, h₃]]
        exact Or.inl ⟨⟨u, []⟩, List.mem_cons_self _ _, rfl⟩
      · have hurest : u ∈ rest := by
          rcases List.mem_cons.mp hu with hc | hc
          · exact absurd hc hue
          · exact hc
        have hidne : u.id ≠ e.id :=
          id_inj_of_nodup raw hnd u huraw e herw hue
        by_cases he₁ : (e.table_name == "club_memberships") = true
        · cases hsubev : subEventsFor (relatedEntries raw processed e)
              (clubOfKey e.record_key) with
          | nil =>
            rw [show groupGo raw (e :: rest) processed =
                ⟨e, []⟩ :: groupGo raw rest ((processed ++ []) ++ [e.id]) by
              rw [groupGo, if_neg hnskip]
              simp only [he₁, if_true, hsubev, List.map_nil,
                List.map_cons]]
            have hup' : u.id ∉ (processed ++ []) ++ [e.id] := by
              simp only [List.append_nil, List.mem_append,
                List.mem_singleton]
              rintro (hc | hc)
              · exact hup hc
              · exact hidne hc
            rcases ih ((processed ++ []) ++ [e.id]) hsub' hurest hup' with
              ⟨g, hg, hgm⟩ | ⟨g, hg, hgm⟩
            · exact Or.inl ⟨g, List.mem_cons_of_mem _ hg, hgm⟩
            · exact Or.inr ⟨g, List.mem_cons_of_mem _ hg, hgm⟩
          | cons s ss =>
            have hsraw : s ∈ raw := by
              apply subEventsFor_subset raw processed e (clubOfKey e.record_key)
              rw [hsubev]
              exact List.mem_cons_self _ _
            by_cases hus : u = s
            · subst hus
              rw [show groupGo raw (e :: rest) processed =
                  ⟨e, [u]⟩ :: groupGo raw rest
                    ((processed ++ [u.id]) ++ [e.id]) by
                rw [groupGo, if_neg hnskip]
                simp only [he₁, if_true, hsubev, List.map_nil,
                List.map_cons]]
              exact Or.inr ⟨⟨e, [u]⟩, List.mem_cons_self _ _,
                List.mem_cons_self _ _⟩
            · have hsidne : u.id ≠ s.id :=
                id_inj_of_nodup raw hnd u huraw s hsraw hus
              rw [show groupGo raw (e :: rest) processed =
                  ⟨e, [s]⟩ :: groupGo raw rest
                    ((processed ++ [s.id]) ++ [e.id]) by
                rw [groupGo, if_neg hnskip]
                simp only [he₁, if_true, hsubev, List.map_nil,
                List.map_cons]]
              have hup' : u.id ∉ (processed ++ [s.id]) ++ [e.id] := by
                simp only [List.mem_append, List.mem_singleton]
                rintro ((hc | hc) | hc)
                · exact hup hc
                · exact hsidne hc
                · exact hidne hc
              rcases ih ((processed ++ [s.id]) ++ [e.id]) hsub' hurest hup'
                with ⟨g, hg, hgm⟩ | ⟨g, hg, hgm⟩
              · exact Or.inl ⟨g, List.mem_cons_of_mem _ hg, hgm⟩
              · exact Or.inr ⟨g, List.mem_cons_of_mem _ hg, hgm⟩
        · have hup' : u.id ∉ processed ++ [e.id] := by
            simp only [List.mem_append, List.mem_singleton]
            rintro (hc | hc)
            · exact hup hc
            · exact hidne hc
          have he₁' : (e.table_name == "club_memberships") = false := by
            cases hv : (e.table_name == "club_memberships") with
            | false => rfl
            | true => exact absurd hv he₁
          by_cases he₂ : (e.table_name == "clubs" &&
              e.operation == "UPDATE") = true
          · by_cases he₃ : (meaningfulChanges e).length > 0
            · rw [show groupGo raw (e :: rest) processed =
                  ⟨e, []⟩ :: groupGo raw rest (processed ++ [e.id]) by
                rw [groupGo, if_neg hnskip]
                simp only [he₁', he₂, Bool.false_eq_true, if_false, if_true,
                  he₃]]
              rcases ih (processed ++ [e.id]) hsub' hurest hup' with
                ⟨g, hg, hgm⟩ | ⟨g, hg, hgm⟩
              · exact Or.inl ⟨g, List.mem_cons_of_mem _ hg, hgm⟩
              · exact Or.inr ⟨g, List.mem_cons_of_mem _ hg, hgm⟩
            · rw [show groupGo raw (e :: rest) processed =
                  groupGo raw rest (processed ++ [e.id]) by
                rw [groupGo, if_neg hnskip]
                simp only [he₁', he₂, Bool.false_eq_true, if_false, if_true,
                  he₃]]
              exact ih (processed ++ [e.id]) hsub' hurest hup'
          · have he₂' : (e.table_name == "clubs" &&
                e.operation == "UPDATE") = false := by
              cases hv : (e.table_name == "clubs" && e.operation == "UPDATE")
                with
              | false => rfl
              | true => exact absurd hv he₂
            rw [show groupGo raw (e :: rest) processed =
                ⟨e, []⟩ :: groupGo raw rest (processed ++ [e.id]) by
              rw [groupGo, if_neg hnskip]
              simp only [he₁', he₂', Bool.false_eq_true, if_false]]
            rcases ih (processed ++ [e.id]) hsub' hurest hup' with
              ⟨g, hg, hgm⟩ | ⟨g, hg, hgm⟩
            · exact Or.inl ⟨g, List.mem_cons_of_mem _ hg, hgm⟩
            · exact Or.inr ⟨g, List.mem_cons_of_mem _ hg, hgm⟩

/-- A membership INSERT by the same admin one second around the updates
below. -/
def entryMem : AuditLogEntry :=
  { id := 1, table_name := "club_memberships", operation := "INSERT",
    record_key := "club_a:vitalik.eth",
    old_data := none,
    new_data := some [("club_name", JVal.str "club_a"),
      ("ens_name", JVal.str "vitalik.eth")],
    actor_address := some "0xadmin", created_at := 1000 }

/-- The trigger's bookkeeping-only clubs UPDATE (only `member_count` and
`updated_at` change). -/
def entryCountUpd : AuditLogEntry :=
  { id := 3, table_name := "clubs", operation := "UPDATE",
    record_key := "club_a",
    old_data := some [("member_count", JVal.num 1),
      ("updated_at", JVal.str "t1")],
    new_data := some [("member_count", JVal.num 2),
      ("updated_at", JVal.str "t2")],
    actor_address := some "0xadmin", created_at := 1400 }

/--
C5 counterexample: a clubs UPDATE whose `description` changed is absorbed
as a triggered sub-event when it sits within one second of a same-actor
membership change on the same category and the membership entry comes
first in the page — it does not appear as its own standalone grouped
event, contradicting "never absorbed into another event".
-/
theorem desc_update_absorbed_counterexample :
    jdiff (snapshotGet entryDescUpd.old_data "description")
      (snapshotGet entryDescUpd.new_data "description") = true ∧
    entryDescUpd.actor_address = entryMem.actor_address ∧
    (entryDescUpd.created_at - entryMem.created_at).natAbs < 1000 ∧
    entryDescUpd.record_key = clubOfKey entryMem.record_key ∧
    groupEntries [entryMem, entryDescUpd] =
      [⟨entryMem, [entryDescUpd]⟩] := by
  decide

/--
C5 (amended): a clubs UPDATE whose `new_data` carries a `description`
differing from `old_data`'s under canonical serialization is never
dropped by the aggregator: on any page with pairwise-distinct ids it is
emitted either as its own standalone grouped event or as the triggered
sub-event of a membership change (the bookkeeping-suppression branch can
never swallow it).
-/
theorem desc_update_never_suppressed (raw : List AuditLogEntry)
    (hnd : (raw.map (fun e => e.id)).Nodup)
    (u : AuditLogEntry) (hu : u ∈ raw)
    (ht : u.table_name = "clubs") (hop : u.operation = "UPDATE")
    (nd : List (String × JVal)) (hnew : u.new_data = some nd)
    (hk : "description" ∈ jsonKeys nd)
    (hdiff : jdiff (snapshotGet u.old_data "description")
      (snapshotGet u.new_data "description") = true) :
    (∃ g ∈ groupEntries raw, g.main = u) ∨
    (∃ g ∈ groupEntries raw, u ∈ g.subEvents) := by
  have hmeq : meaningfulChanges u = (jsonKeys nd).filter (fun key =>
      if aggregatorIgnored.contains key then false
      else jdiff (snapshotGet u.old_data key) (snapshotGet u.new_data key))
      := by
    simp [meaningfulChanges, hnew]
  have hmem : "description" ∈ meaningfulChanges u := by
    rw [hmeq]
    refine List.mem_filter.mpr ⟨hk, ?_⟩
    rw [if_neg (by decide), hdiff]
  have hmc : 0 < (meaningfulChanges u).length :=
    List.length_pos.mpr (List.ne_nil_of_mem hmem)
  exact groupGo_preserves_meaningful_update raw hnd u hu ht hop hmc raw []
    (fun x hx => hx) hu (by simp)

/-- Witness for C5: on the single-entry page `[entryDescUpd]` the
description change is emitted (as a main event). -/
theorem desc_update_never_suppressed_witness :
    (∃ g ∈ groupEntries [entryDescUpd], g.main = entryDescUpd) ∨
    (∃ g ∈ groupEntries [entryDescUpd], entryDescUpd ∈ g.subEvents) :=
  desc_update_never_suppressed [entryDescUpd] (by decide) entryDescUpd
    (List.mem_cons_self _ _) rfl rfl
    [("description", JVal.str "b"), ("member_count", JVal.num 2)]
    (by decide) (by decide) (by decide)

/--
C4 counterexample: when the same-actor, same-category, within-one-second
clubs UPDATE precedes the membership entry in the page (the newest-first
order of a trigger-caused update) and carries a meaningful change, the
aggregator emits TWO standalone grouped events — not a single grouped
event with the membership change as main.
-/
theorem membership_grouping_counterexample :
    entryMem.table_name = "club_memberships" ∧
    entryMem.operation = "INSERT" ∧
    entryDescUpd.table_name = "clubs" ∧
    entryDescUpd.operation = "UPDATE" ∧
    entryDescUpd.record_key = clubOfKey entryMem.record_key ∧
    entryDescUpd.actor_address = entryMem.actor_address ∧
    (entryDescUpd.created_at - entryMem.created_at).natAbs < 1000 ∧
    groupEntries [entryDescUpd, entryMem] =
      [⟨entryDescUpd, []⟩, ⟨entryMem, []⟩] := by
  decide

/--
C4 (amended): for a page consisting of a membership change `m` and a
same-actor clubs UPDATE `u` on the same category within one second: when
`m` precedes `u`, the aggregator emits exactly one grouped event with `m`
as main and `u` absorbed as its only triggered sub-event (consumed once,
never standalone); when `u` precedes `m` and `u` has no meaningful
change (the trigger's counter bump), `u` is suppressed and the single
emitted event is `m` standalone.
-/
theorem membership_absorbs_counter_update (m u : AuditLogEntry)
    (htm : m.table_name = "club_memberships")
    (htu : u.table_name = "clubs") (hopu : u.operation = "UPDATE")
    (hkey : u.record_key = clubOfKey m.record_key)
    (hact : u.actor_address = m.actor_address)
    (htime : (u.created_at - m.created_at).natAbs < 1000)
    (hid : m.id ≠ u.id) :
    groupEntries [m, u] = [⟨m, [u]⟩] ∧
    ((meaningfulChanges u).length = 0 → groupEntries [u, m] = [⟨m, []⟩]) := by
  have hmm : (m.table_name == "club_memberships") = true := by simp [htm]
  have hum : (u.table_name == "club_memberships") = false := by simp [htu]
  have huc : (u.table_name == "clubs") = true := by simp [htu]
  have huo : (u.operation == "UPDATE") = true := by simp [hopu]
  have hidb : (u.id == m.id) = false := by simp [Ne.symm hid]
  have hidb' : (m.id == u.id) = false := by simp [hid]
  have hid2 : u.id ≠ m.id := Ne.symm hid
  have htim : (decide ((u.created_at - m.created_at).natAbs < 1000)) =
      true := decide_eq_true htime
  have htim' : (decide ((m.created_at - u.created_at).natAbs < 1000)) =
      true := by
    have h1000 : (m.created_at - u.created_at).natAbs < 1000 := by
      omega
    exact decide_eq_true h1000
  have hact' : (u.actor_address == m.actor_address) = true := by simp [hact]
  have hkey' : (u.record_key == clubOfKey m.record_key) = true := by
    simp [hkey]
  constructor
  · simp [groupEntries, groupGo, relatedEntries, subEventsFor, hmm, hum,
      huc, huo, hidb, hidb', hid2, hid, htim, hact', hkey']
  · intro hmcz
    have hmcz' : ¬((meaningfulChanges u).length > 0) := by omega
    simp [groupEntries, groupGo, relatedEntries, subEventsFor, hmm, hum,
      huc, huo, hidb, hidb', hid2, hid, htim, htim', hact', hkey', hmcz']

/-- Witness for C4: the concrete membership INSERT and counter-bump
UPDATE group into one event in either page order. -/
theorem membership_absorbs_counter_update_witness :
    groupEntries [entryMem, entryCountUpd] =
      [⟨entryMem, [entryCountUpd]⟩] ∧
    groupEntries [entryCountUpd, entryMem] = [⟨entryMem, []⟩] := by
  have h := membership_absorbs_counter_update entryMem entryCountUpd rfl
    rfl rfl (by decide) rfl (by decide) (by decide)
  exact ⟨h.1, h.2 (by decide)⟩

end CatAdmin
